import Mathlib

/-!
Shallow embedding of the orchestration core of `proxy-rs`
(`src/mihomo.rs`, `src/tunnel.rs`, `src/proxy_selector.rs`, `src/config.rs`)
together with proofs of the specified properties.

External effects (filesystem, OS process table, network probes, the child
processes spawned for tunneling, and the interactive confirmation prompt)
are modelled by explicit state passing and by oracle functions supplied as
arguments; everything else is translated directly from the Rust source.
-/

namespace ProxyRs

/-! ## Decimal process-id strings

`MihomoManager::save_pid` writes `child.id().to_string()` (the decimal
rendering of the pid) and `load_pid` re-parses it with
`sysinfo::Pid::from_str`, i.e. a decimal integer parse of the whole file
content.  We model the rendering by `Nat.repr` and the parse by a
digits-only decimal parser (the platform-specific sign and overflow
handling of the pid integer type is not exercised by any property). -/

/-- One step of the decimal accumulation performed by an integer parse. -/
def pidStep (n : Nat) (c : Char) : Nat := n * 10 + (c.toNat - 48)

/-- Model of `sysinfo::Pid::from_str` as used by `MihomoManager::load_pid`:
the whole string must be a nonempty run of decimal digits (no trimming is
performed by the source), otherwise the parse fails. -/
def parsePid (s : String) : Option Nat :=
  if !s.data.isEmpty && s.data.all Char.isDigit then
    some (s.data.foldl pidStep 0)
  else
    none

/-- The most-significant-first decimal digit characters of a number, the
reference shape of what `Nat.repr` produces. -/
def digitsChars (n : Nat) : List Char :=
  if h : n < 10 then [Nat.digitChar n]
  else digitsChars (n / 10) ++ [Nat.digitChar (n % 10)]
decreasing_by exact Nat.div_lt_self (by omega) (by omega)

theorem digitsChars_lt (n : Nat) (h : n < 10) :
    digitsChars n = [Nat.digitChar n] := by
  rw [digitsChars]
  exact dif_pos h

theorem digitsChars_ge (n : Nat) (h : ¬ n < 10) :
    digitsChars n = digitsChars (n / 10) ++ [Nat.digitChar (n % 10)] := by
  rw [digitsChars]
  exact dif_neg h

theorem toDigitsCore_eq_digitsChars (fuel : Nat) :
    ∀ (n : Nat) (acc : List Char), n < fuel →
      Nat.toDigitsCore 10 fuel n acc = digitsChars n ++ acc := by
  induction fuel with
  | zero => intro n acc h; omega
  | succ fuel ih =>
    intro n acc _
    by_cases h10 : n / 10 = 0
    · have hn : n < 10 := by omega
      simp only [Nat.toDigitsCore, h10, if_pos]
      rw [digitsChars_lt n hn, Nat.mod_eq_of_lt hn]
      rfl
    · have hlt : n / 10 < fuel := by
        have h1 : n / 10 < n := Nat.div_lt_self (by omega) (by omega)
        omega
      simp only [Nat.toDigitsCore, h10, if_neg, ite_false]
      rw [digitsChars_ge n (by omega), ih (n / 10) _ hlt, List.append_assoc]
      rfl

theorem repr_data (n : Nat) : (Nat.repr n).data = digitsChars n := by
  show (List.asString (Nat.toDigits 10 n)).data = digitsChars n
  rw [Nat.toDigits, toDigitsCore_eq_digitsChars (n + 1) n [] (by omega)]
  simp [List.asString]

theorem digitChar_isDigit : ∀ d, d < 10 → (Nat.digitChar d).isDigit = true := by
  decide

theorem digitChar_val : ∀ d, d < 10 → (Nat.digitChar d).toNat - 48 = d := by
  decide

theorem digitsChars_ne_nil (n : Nat) : digitsChars n ≠ [] := by
  by_cases h : n < 10
  · rw [digitsChars_lt n h]; simp
  · rw [digitsChars_ge n h]; simp

theorem digitsChars_all_digits (n : Nat) :
    (digitsChars n).all Char.isDigit = true := by
  induction n using Nat.strong_induction_on with
  | _ n ih =>
    by_cases h : n < 10
    · rw [digitsChars_lt n h]
      simp [digitChar_isDigit n h]
    · rw [digitsChars_ge n h, List.all_append]
      have h1 := ih (n / 10) (Nat.div_lt_self (by omega) (by omega))
      have h2 := digitChar_isDigit (n % 10) (by omega)
      simp [h1, h2]

theorem foldl_digitsChars (n : Nat) :
    ∀ init : Nat, (digitsChars n).foldl pidStep init
      = init * 10 ^ (digitsChars n).length + n := by
  induction n using Nat.strong_induction_on with
  | _ n ih =>
    intro init
    by_cases h : n < 10
    · rw [digitsChars_lt n h]
      simp [pidStep, digitChar_val n h]
    · rw [digitsChars_ge n h]
      rw [List.foldl_append, ih (n / 10) (Nat.div_lt_self (by omega) (by omega)) init]
      have hdm : n / 10 * 10 + n % 10 = n := by omega
      simp only [List.foldl_cons, List.foldl_nil, List.length_append,
        List.length_singleton, pidStep, digitChar_val (n % 10) (by omega)]
      calc (init * 10 ^ (digitsChars (n / 10)).length + n / 10) * 10 + n % 10
          = init * (10 ^ (digitsChars (n / 10)).length * 10)
              + (n / 10 * 10 + n % 10) := by ring
        _ = init * 10 ^ ((digitsChars (n / 10)).length + 1) + n := by
              rw [hdm, pow_succ]

/-- Writing a pid with `to_string()` and re-parsing it with the decimal
parse recovers the pid. -/
theorem parsePid_repr (n : Nat) : parsePid (Nat.repr n) = some n := by
  unfold parsePid
  rw [repr_data]
  rw [if_pos]
  · rw [foldl_digitsChars n 0]
    simp
  · simp [digitsChars_all_digits n, List.isEmpty_iff, digitsChars_ne_nil n]

/-! ## Process supervisor (`src/mihomo.rs`)

The state visible to `MihomoManager` is the content of the pid record file
(`proxy-data/mihomo.pid`) and the OS process table.  `kill_and_wait` may
fail (e.g. no permission); this outcome is an oracle attached to the
state.  Filesystem writes and removals of the modelled record file
succeed, mirroring the source's `let _ = fs::remove_file(..)`. -/

/-- Errors of the supervisor, per the error taxonomy of the design:
`stopError` models `anyhow!("Failed to stop: ..")` from
`MihomoManager::stop`, `launchError` a failed `Command::spawn`. -/
inductive MihomoErr
  | stopError
  | launchError
deriving DecidableEq

/-- The world `MihomoManager` interacts with: the pid record file content
(`none` = file absent), the set of live pids in the process table, and an
oracle saying whether `kill_and_wait` on a given pid succeeds. -/
structure Sys where
  pidFile : Option String
  live : Finset Nat
  killOk : Nat → Bool

/-- `MihomoManager::load_pid`: read the record file and parse its whole
content as a decimal pid; any failure yields `none`. -/
def load_pid (s : Sys) : Option Nat :=
  s.pidFile.bind parsePid

/-- `MihomoManager::is_running`: if a pid is recorded, look it up in the
process table; a recorded pid with no live process deletes the record
(self-healing) and reports not running.  Returns the reported pid and the
possibly-updated world. -/
def is_running (s : Sys) : Option Nat × Sys :=
  match load_pid s with
  | some pid =>
    if pid ∈ s.live then (some pid, s)
    else (none, { s with pidFile := none })
  | none => (none, s)

/-- `MihomoManager::stop`: load the pid, look up the process; if found,
`kill_and_wait` (propagating its failure *before* any file removal);
afterwards (in the found-and-killed and the not-found cases alike) the
record file is removed and success is returned. -/
def stop (s : Sys) : Except MihomoErr Unit × Sys :=
  match (load_pid s).bind (fun pid => if pid ∈ s.live then some pid else none) with
  | some pid =>
    if s.killOk pid then
      (Except.ok (), { s with live := s.live.erase pid, pidFile := none })
    else
      (Except.error MihomoErr.stopError, s)
  | none => (Except.ok (), { s with pidFile := none })

/-- `MihomoManager::status`: a read wrapper over `is_running` (the source
only chooses which message to log). -/
def status (s : Sys) : Option Nat × Sys :=
  is_running s

/-- `MihomoManager::start`: if `is_running` reports a live pid, perform a
full `stop` first (propagating its error); then spawn the process
(`spawnOk` is the spawn oracle, `newPid` the fresh pid of the child) and
persist the new pid with `save_pid`, which writes `child.id().to_string()`.
The download/config steps between do not touch the record or the process
table and are elided. -/
def start (s : Sys) (spawnOk : Bool) (newPid : Nat) : Except MihomoErr Unit × Sys :=
  let r := is_running s
  let stopped : Except MihomoErr Unit × Sys :=
    match r.1 with
    | some _ => stop r.2
    | none => (Except.ok (), r.2)
  let s2 := stopped.2
  match stopped.1 with
  | Except.ok _ =>
    if spawnOk then
      (Except.ok (),
        { s2 with live := insert newPid s2.live, pidFile := some (Nat.repr newPid) })
    else
      (Except.error MihomoErr.launchError, s2)
  | Except.error e => (Except.error e, s2)

/-- A world with a recorded live pid whose `kill_and_wait` fails. -/
def sysKillFail : Sys :=
  { pidFile := some "5", live := {5}, killOk := fun _ => false }

/-- A world with a recorded live pid whose `kill_and_wait` succeeds. -/
def sysKillOk : Sys :=
  { pidFile := some "7", live := {7}, killOk := fun _ => true }

/-- A world with no record file at all. -/
def sysNoRecord : Sys :=
  { pidFile := none, live := ∅, killOk := fun _ => false }

/-- A world with a stale record: pid 9 is recorded but not live. -/
def sysStale : Sys :=
  { pidFile := some "9", live := ∅, killOk := fun _ => true }

/-- A world whose record file content is not a decimal pid. -/
def sysBadRecord : Sys :=
  { pidFile := some "abc", live := {4}, killOk := fun _ => true }

/-- A world with a recorded live pid 3, used to exercise `start`. -/
def sysRunning : Sys :=
  { pidFile := some "3", live := {3}, killOk := fun _ => true }

/-- C1 (counterexample): when `kill_and_wait` fails, `stop` returns the
error before reaching the file removal, so the record file survives a
`stop` call that returns — refuting "stop always ends with no persisted
record, whether termination succeeded, failed, or the record was stale". -/
theorem stop_failed_kill_keeps_record :
    (stop sysKillFail).1 = Except.error MihomoErr.stopError ∧
    (stop sysKillFail).2.pidFile = some "5" :=
  ⟨rfl, rfl⟩

/-- C1 (amended): after any `stop` call that returns *successfully* —
whether termination succeeded or the record was stale or absent — the
record file does not exist and a subsequent `status()` returns none. -/
theorem stop_ok_clears_record (s : Sys) (h : (stop s).1 = Except.ok ()) :
    (stop s).2.pidFile = none ∧ (status (stop s).2).1 = none := by
  have hfile : (stop s).2.pidFile = none := by
    unfold stop at h ⊢
    rcases hp : (load_pid s).bind
        (fun pid => if pid ∈ s.live then some pid else none) with _ | pid
    · simp [hp]
    · rw [hp] at h
      by_cases hk : s.killOk pid
      · simp [hp, hk]
      · simp [hk] at h
  exact ⟨hfile, by simp [status, is_running, load_pid, hfile]⟩

theorem stop_ok_clears_record_witness :
    (stop sysKillOk).1 = Except.ok () ∧
    (stop sysKillOk).2.pidFile = none ∧ (status (stop sysKillOk).2).1 = none :=
  ⟨rfl, stop_ok_clears_record sysKillOk rfl⟩

/-- C7: calling `stop` when no record exists returns success (not an
error) and leaves no record file. -/
theorem stop_without_record_succeeds (s : Sys) (h : s.pidFile = none) :
    (stop s).1 = Except.ok () ∧ (stop s).2.pidFile = none := by
  unfold stop
  simp [load_pid, h]

theorem stop_without_record_succeeds_witness :
    sysNoRecord.pidFile = none ∧
    (stop sysNoRecord).1 = Except.ok () ∧ (stop sysNoRecord).2.pidFile = none :=
  ⟨rfl, stop_without_record_succeeds sysNoRecord rfl⟩

/-- C6: a record naming a pid with no live process makes `is_running`
(thus `status`) return none and delete the record; a second call returns
none again and changes nothing further. -/
theorem stale_record_self_heals (s : Sys) (pid : Nat)
    (hload : load_pid s = some pid) (hdead : pid ∉ s.live) :
    is_running s = (none, { s with pidFile := none }) ∧
    is_running { s with pidFile := none } = (none, { s with pidFile := none }) := by
  constructor
  · unfold is_running
    rw [hload]
    simp [hdead]
  · unfold is_running load_pid
    simp

theorem stale_record_self_heals_witness :
    load_pid sysStale = some 9 ∧ 9 ∉ sysStale.live ∧
    is_running sysStale = (none, { sysStale with pidFile := none }) ∧
    is_running { sysStale with pidFile := none }
      = (none, { sysStale with pidFile := none }) :=
  ⟨rfl, Finset.not_mem_empty 9,
    (stale_record_self_heals sysStale 9 rfl (Finset.not_mem_empty 9)).1,
    (stale_record_self_heals sysStale 9 rfl (Finset.not_mem_empty 9)).2⟩

/-- C10: a record file whose content does not parse as a decimal pid makes
`is_running`/`status` return none, but the malformed file is left in place
(the whole world, file included, is unchanged). -/
theorem malformed_record_left_in_place (s : Sys) (c : String)
    (hfile : s.pidFile = some c) (hbad : parsePid c = none) :
    is_running s = (none, s) ∧ status s = (none, s) := by
  have h : is_running s = (none, s) := by
    unfold is_running load_pid
    rw [hfile]
    simp [hbad]
  exact ⟨h, h⟩

theorem malformed_record_left_in_place_witness :
    sysBadRecord.pidFile = some "abc" ∧ parsePid "abc" = none ∧
    is_running sysBadRecord = (none, sysBadRecord) ∧
    status sysBadRecord = (none, sysBadRecord) :=
  ⟨rfl, rfl,
    (malformed_record_left_in_place sysBadRecord "abc" rfl rfl).1,
    (malformed_record_left_in_place sysBadRecord "abc" rfl rfl).2⟩

/-- C5: starting while a live pid is tracked first performs a full stop;
after a successful `start` the record names exactly the fresh pid, that
process is live, the previously running process has exited, and
`is_running` reports the fresh pid. -/
theorem start_single_instance (s : Sys) (spawnOk : Bool) (newPid oldPid : Nat)
    (hrun : (is_running s).1 = some oldPid)
    (hfresh : newPid ∉ s.live)
    (hok : (start s spawnOk newPid).1 = Except.ok ()) :
    load_pid (start s spawnOk newPid).2 = some newPid ∧
    newPid ∈ (start s spawnOk newPid).2.live ∧
    oldPid ∉ (start s spawnOk newPid).2.live ∧
    (is_running (start s spawnOk newPid).2).1 = some newPid := by
  rcases hl : load_pid s with _ | pid
  · unfold is_running at hrun
    rw [hl] at hrun
    simp at hrun
  · by_cases hm : pid ∈ s.live
    · have hpid : pid = oldPid := by
        unfold is_running at hrun
        rw [hl] at hrun
        simp [hm] at hrun
        exact hrun
      subst hpid
      have hr : is_running s = (some pid, s) := by
        unfold is_running
        rw [hl]
        simp [hm]
      by_cases hk : s.killOk pid
      · have hstop : stop s
            = (Except.ok (), { s with live := s.live.erase pid, pidFile := none }) := by
          unfold stop
          rw [hl]
          simp [hm, hk]
        cases spawnOk with
        | false =>
          exfalso
          simp [start, hr, hstop] at hok
        | true =>
          have hne : pid ≠ newPid := fun e => hfresh (e ▸ hm)
          have hstart : start s true newPid
              = (Except.ok (),
                  { pidFile := some (Nat.repr newPid),
                    live := insert newPid (s.live.erase pid),
                    killOk := s.killOk }) := by
            simp [start, hr, hstop]
          rw [hstart]
          refine ⟨by simp [load_pid, parsePid_repr], by simp, ?_, ?_⟩
          · simp [Finset.mem_insert, Finset.mem_erase]
            intro hcon
            exact absurd hcon hne
          · simp [is_running, load_pid, parsePid_repr]
      · exfalso
        have hstop : stop s = (Except.error MihomoErr.stopError, s) := by
          unfold stop
          rw [hl]
          simp [hm, hk]
        cases spawnOk <;> simp [start, hr, hstop] at hok
    · exfalso
      unfold is_running at hrun
      rw [hl] at hrun
      simp [hm] at hrun

theorem start_single_instance_witness :
    load_pid (start sysRunning true 4).2 = some 4 ∧
    4 ∈ (start sysRunning true 4).2.live ∧
    3 ∉ (start sysRunning true 4).2.live ∧
    (is_running (start sysRunning true 4).2).1 = some 4 :=
  start_single_instance sysRunning true 4 3 rfl (by decide) rfl

/-! ## Tunnel orchestrator (`src/tunnel.rs`)

`try_tunnel_service` checks once for the `ssh` executable, then walks the
fixed service list in order, runs each command to completion, and asks the
confirmation prompt after every exit; a negative answer breaks the loop.
The exit status of each invocation (`exits k` for the `k`-th attempt,
`none` = the command could not even be launched, `some none` = no exit
code, `some (some c)` = code `c`) only feeds the log line; the answers of
`ask_for_confirmation` are the oracle `confirm`.  Alongside the returned
`Result` we record the trace of invoked services with their normalized
exit codes. -/

/-- Error taxonomy entry of the design for a missing `ssh` executable. -/
inductive TunnelErr
  | prerequisiteMissing
deriving DecidableEq

structure TunnelService where
  name : String
  command : List String
deriving DecidableEq

def SSH_DEFAULT_PARAMS : List String :=
  ["-o", "StrictHostKeyChecking=no", "-o", "ServerAliveInterval=30",
   "-o", "ConnectTimeout=5"]

/-- The fixed ordered service list built by `try_tunnel_service` from the
local port. -/
def tunnelServices (port : Nat) : List TunnelService :=
  let port_forward_80 := "-R80:localhost:" ++ Nat.repr port
  let port_forward_0 := "-R0:localhost:" ++ Nat.repr port
  [ { name := "localhost.run",
      command := ["ssh"] ++ SSH_DEFAULT_PARAMS
        ++ [port_forward_80, "nokey@localhost.run"] },
    { name := "serveo.net",
      command := ["ssh"] ++ SSH_DEFAULT_PARAMS ++ [port_forward_80, "serveo.net"] },
    { name := "pinggy.io",
      command := ["ssh", "-p", "443"] ++ SSH_DEFAULT_PARAMS
        ++ ["-t", port_forward_0, "a.pinggy.io", "x:passpreflight"] } ]

/-- `status.map(|s| s.code().unwrap_or(1)).unwrap_or(1)`: a launch failure
or a missing exit code is normalized to the sentinel 1. -/
def normalized_exit_code (st : Option (Option Int)) : Int :=
  match st with
  | some (some c) => c
  | some none => 1
  | none => 1

/-- The `for service in services` loop: invoke, log the normalized exit
code, ask for confirmation, break on a negative answer. -/
def runServices (exits : Nat → Option (Option Int)) (confirm : Nat → Bool) :
    List TunnelService → Nat → List (String × Int)
  | [], _ => []
  | svc :: rest, k =>
    (svc.name, normalized_exit_code (exits k)) ::
      (if confirm k then runServices exits confirm rest (k + 1) else [])

/-- `try_tunnel_service`: if `which("ssh")` fails, log an error and return
`Ok(())` with no service invoked; otherwise run the loop and return
`Ok(())`. -/
def try_tunnel_service (sshInstalled : Bool) (port : Nat)
    (exits : Nat → Option (Option Int)) (confirm : Nat → Bool) :
    Except TunnelErr Unit × List (String × Int) :=
  if sshInstalled then
    (Except.ok (), runServices exits confirm (tunnelServices port) 0)
  else
    (Except.ok (), [])

/-- C2 (counterexample): with `ssh` absent, `try_tunnel_service` returns
success — not the error `PrerequisiteMissing` — though indeed no service
command is invoked. -/
theorem missing_ssh_returns_ok :
    (try_tunnel_service false 7890 (fun _ => none) (fun _ => true)).1
        = Except.ok () ∧
    (try_tunnel_service false 7890 (fun _ => none) (fun _ => true)).1
        ≠ Except.error TunnelErr.prerequisiteMissing ∧
    (try_tunnel_service false 7890 (fun _ => none) (fun _ => true)).2 = [] :=
  ⟨rfl, fun h => Except.noConfusion h, rfl⟩

/-- C2 (amended): when the required `ssh` executable is not discoverable,
`try_tunnel_service` logs an error but returns success, and no service
command is invoked. -/
theorem missing_ssh_no_service_invoked (port : Nat)
    (exits : Nat → Option (Option Int)) (confirm : Nat → Bool) :
    try_tunnel_service false port exits confirm = (Except.ok (), []) :=
  rfl

/-- C8: services are invoked strictly in list order; a negative answer at
attempt `k` (all earlier answers positive) halts the sequence with exactly
the first `k + 1` services invoked, and the call returns success. -/
theorem tunnel_halts_on_negative_answer (port : Nat)
    (exits : Nat → Option (Option Int)) (confirm : Nat → Bool) (k : Nat)
    (hk : k < (tunnelServices port).length)
    (hpos : ∀ i, i < k → confirm i = true) (hneg : confirm k = false) :
    (try_tunnel_service true port exits confirm).1 = Except.ok () ∧
    ((try_tunnel_service true port exits confirm).2).map Prod.fst
      = ((tunnelServices port).map TunnelService.name).take (k + 1) := by
  have hlen : (tunnelServices port).length = 3 := by
    simp [tunnelServices]
  rw [hlen] at hk
  interval_cases k
  · refine ⟨rfl, ?_⟩
    simp [try_tunnel_service, tunnelServices, runServices, hneg]
  · refine ⟨rfl, ?_⟩
    have h0 := hpos 0 (by omega)
    simp [try_tunnel_service, tunnelServices, runServices, h0, hneg]
  · refine ⟨rfl, ?_⟩
    have h0 := hpos 0 (by omega)
    have h1 := hpos 1 (by omega)
    simp [try_tunnel_service, tunnelServices, runServices, h0, h1, hneg]

theorem tunnel_halts_on_negative_answer_witness :
    (try_tunnel_service true 7890 (fun _ => some (some 0)) (fun _ => false)).1
        = Except.ok () ∧
    ((try_tunnel_service true 7890 (fun _ => some (some 0)) (fun _ => false)).2).map
        Prod.fst
      = ["localhost.run"] := by
  have h := tunnel_halts_on_negative_answer 7890 (fun _ => some (some 0))
    (fun _ => false) 0 (by simp [tunnelServices]) (fun i hi => absurd hi (by omega)) rfl
  refine ⟨h.1, ?_⟩
  rw [h.2]
  rfl

/-! ## Mirror selector (`src/proxy_selector.rs`)

`select_fastest_github_proxy` probes each proxy (the request URL is the
proxy string concatenated with the fixed speedtest URL, so the network
outcome is a function of the proxy string): a request that errors, times
out, or returns a non-success status contributes nothing; a successful
request contributes its elapsed duration.  The oracle
`probe : String → Option Nat` returns the elapsed duration (when the
request succeeded with a success status, else `none`); durations are
modelled as naturals.  `Iterator::min_by_key` returns the first minimal
element on ties, which we model by a left fold replacing the accumulator
only on a strictly smaller key. -/

inductive SelectorErr
  | noGithubProxyAvailable
deriving DecidableEq

def GITHUB_PROXIES : List String :=
  ["", "https://github.akams.cn/", "https://github.moeyy.xyz/", "https://tvv.tw/"]

/-- The contribution of one proxy to the `filter_map`: its pair
`(proxy, elapsed)` when the probe succeeded. -/
def probeItem (probe : String → Option Nat) (pr : String) :
    Option (String × Nat) :=
  (probe pr).map (fun e => (pr, e))

/-- The collected `results` vector of `(proxy, duration)` pairs. -/
def probeResults (probe : String → Option Nat) : List (String × Nat) :=
  GITHUB_PROXIES.filterMap (probeItem probe)

/-- One comparison step of `min_by_key`: keep the accumulator unless the
new element is strictly smaller. -/
def minStep (acc y : String × Nat) : String × Nat :=
  if y.2 < acc.2 then y else acc

/-- `Iterator::min_by_key` over the results: `none` on an empty list,
otherwise the first element of minimal key. -/
def min_by_key : List (String × Nat) → Option (String × Nat)
  | [] => none
  | x :: xs => some (xs.foldl minStep x)

/-- `select_fastest_github_proxy`: the proxy of the minimal measured
duration, or the `No GitHub proxy available` error when no probe
succeeded. -/
def select_fastest_github_proxy (probe : String → Option Nat) :
    Except SelectorErr String :=
  match min_by_key (probeResults probe) with
  | some r => Except.ok r.1
  | none => Except.error SelectorErr.noGithubProxyAvailable

theorem minStep_le_left (acc y : String × Nat) : (minStep acc y).2 ≤ acc.2 := by
  unfold minStep
  split <;> omega

theorem minStep_eq_of_lt (acc y : String × Nat) (h : y.2 < acc.2) :
    minStep acc y = y := by
  unfold minStep
  rw [if_pos h]

theorem minStep_le_right (acc y : String × Nat) : (minStep acc y).2 ≤ y.2 := by
  unfold minStep
  split <;> omega

theorem foldl_minStep_mem (xs : List (String × Nat)) :
    ∀ acc, xs.foldl minStep acc = acc ∨ xs.foldl minStep acc ∈ xs := by
  induction xs with
  | nil => intro acc; left; rfl
  | cons x xs ih =>
    intro acc
    rw [List.foldl_cons]
    rcases ih (minStep acc x) with h | h
    · rw [h]
      unfold minStep
      split
      · right; exact List.mem_cons_self x xs
      · left; rfl
    · right
      exact List.mem_cons_of_mem x h

theorem foldl_minStep_le_init (xs : List (String × Nat)) :
    ∀ acc, (xs.foldl minStep acc).2 ≤ acc.2 := by
  induction xs with
  | nil => intro acc; exact le_refl _
  | cons x xs ih =>
    intro acc
    rw [List.foldl_cons]
    exact le_trans (ih (minStep acc x)) (minStep_le_left acc x)

theorem foldl_minStep_le_mem (xs : List (String × Nat)) :
    ∀ acc, ∀ y ∈ xs, (xs.foldl minStep acc).2 ≤ y.2 := by
  induction xs with
  | nil => intro acc y hy; simp at hy
  | cons x xs ih =>
    intro acc y hy
    rw [List.foldl_cons]
    rcases List.mem_cons.1 hy with h | h
    · subst h
      exact le_trans (foldl_minStep_le_init xs (minStep acc y)) (minStep_le_right acc y)
    · exact ih (minStep acc x) y h

theorem foldl_minStep_keep (xs : List (String × Nat)) :
    ∀ acc, (∀ y ∈ xs, acc.2 ≤ y.2) → xs.foldl minStep acc = acc := by
  induction xs with
  | nil => intro acc _; rfl
  | cons x xs ih =>
    intro acc h
    rw [List.foldl_cons]
    have hx : minStep acc x = acc := by
      unfold minStep
      rw [if_neg]
      have := h x (List.mem_cons_self x xs)
      omega
    rw [hx]
    exact ih acc (fun y hy => h y (List.mem_cons_of_mem x hy))

/-- The first element of minimal key wins: when everything before `m` is
strictly larger and everything after is at least as large, `min_by_key`
returns `m`. -/
theorem min_by_key_first_of_min (p s : List (String × Nat)) (m : String × Nat)
    (hp : ∀ y ∈ p, m.2 < y.2) (hs : ∀ y ∈ s, m.2 ≤ y.2) :
    min_by_key (p ++ m :: s) = some m := by
  cases p with
  | nil =>
    rw [List.nil_append]
    simp only [min_by_key]
    rw [foldl_minStep_keep s m hs]
  | cons x xp =>
    rw [List.cons_append]
    simp only [min_by_key]
    rw [List.foldl_append, List.foldl_cons]
    have hA : m.2 < (xp.foldl minStep x).2 := by
      rcases foldl_minStep_mem xp x with h | h
      · rw [h]
        exact hp x (List.mem_cons_self x xp)
      · exact hp _ (List.mem_cons_of_mem x h)
    rw [minStep_eq_of_lt _ _ hA, foldl_minStep_keep s m hs]

theorem filterMap_probeItem_sound (probe : String → Option Nat)
    (l : List String) (y : String × Nat)
    (h : y ∈ l.filterMap (probeItem probe)) :
    y.1 ∈ l ∧ probe y.1 = some y.2 := by
  rcases List.mem_filterMap.1 h with ⟨a, ha, hfa⟩
  unfold probeItem at hfa
  rcases Option.map_eq_some'.1 hfa with ⟨e, he, hy⟩
  subst hy
  exact ⟨ha, he⟩

theorem filterMap_probeItem_mem (probe : String → Option Nat)
    (l : List String) (a : String) (e : Nat) (ha : a ∈ l)
    (he : probe a = some e) :
    (a, e) ∈ l.filterMap (probeItem probe) :=
  List.mem_filterMap.2 ⟨a, ha, by simp [probeItem, he]⟩

/-- A probe under which no candidate is reachable. -/
def probeAllDown : String → Option Nat := fun _ => none

/-- A probe under which only the direct candidate succeeds (3 units). -/
def probeDirectOnly : String → Option Nat :=
  fun p => if p = "" then some 3 else none

/-- A probe under which the direct candidate and the first mirror tie. -/
def probeTie : String → Option Nat :=
  fun p => if p = "" then some 5
    else if p = "https://github.akams.cn/" then some 5 else none

/-- C3: the call fails with the no-proxy error exactly when every
candidate (the direct one included — it is in the candidate list) is
unreachable; when it returns a proxy, that proxy is a candidate whose
probe succeeded with the minimum elapsed duration among all successful
probes. -/
theorem select_fastest_spec (probe : String → Option Nat) :
    ("" ∈ GITHUB_PROXIES) ∧
    (select_fastest_github_proxy probe
        = Except.error SelectorErr.noGithubProxyAvailable
      ↔ ∀ p ∈ GITHUB_PROXIES, probe p = none) ∧
    (∀ pfx, select_fastest_github_proxy probe = Except.ok pfx →
      pfx ∈ GITHUB_PROXIES ∧ ∃ d, probe pfx = some d ∧
        ∀ q ∈ GITHUB_PROXIES, ∀ e, probe q = some e → d ≤ e) := by
  refine ⟨by simp [GITHUB_PROXIES], ⟨?_, ?_⟩, ?_⟩
  · intro h p hp
    rcases hq : probe p with _ | e
    · rfl
    · exfalso
      have hmem : (p, e) ∈ probeResults probe :=
        filterMap_probeItem_mem probe GITHUB_PROXIES p e hp hq
      unfold select_fastest_github_proxy at h
      rcases hres : probeResults probe with _ | ⟨x, xs⟩
      · rw [hres] at hmem
        simp at hmem
      · rw [hres] at h
        simp [min_by_key] at h
  · intro h
    unfold select_fastest_github_proxy
    have hnil : probeResults probe = [] := by
      unfold probeResults
      rw [List.filterMap_eq_nil_iff]
      intro a ha
      simp [probeItem, h a ha]
    rw [hnil]
    rfl
  · intro pfx h
    unfold select_fastest_github_proxy at h
    rcases hres : probeResults probe with _ | ⟨x, xs⟩
    · rw [hres] at h
      simp [min_by_key] at h
    · rw [hres] at h
      simp only [min_by_key] at h
      have hr : (xs.foldl minStep x).1 = pfx := by
        cases h
        rfl
      have hrmem : xs.foldl minStep x ∈ probeResults probe := by
        rw [hres]
        rcases foldl_minStep_mem xs x with h' | h'
        · rw [h']
          exact List.mem_cons_self x xs
        · exact List.mem_cons_of_mem x h'
      have hsound := filterMap_probeItem_sound probe GITHUB_PROXIES _ hrmem
      rw [hr] at hsound
      refine ⟨hsound.1, (xs.foldl minStep x).2, hsound.2, ?_⟩
      intro q hq e he
      have hqmem : (q, e) ∈ probeResults probe :=
        filterMap_probeItem_mem probe GITHUB_PROXIES q e hq he
      rw [hres] at hqmem
      rcases List.mem_cons.1 hqmem with h' | h'
      · subst h'
        simpa using foldl_minStep_le_init xs (q, e)
      · exact foldl_minStep_le_mem xs x (q, e) h'

theorem select_fastest_spec_witness :
    select_fastest_github_proxy probeAllDown
      = Except.error SelectorErr.noGithubProxyAvailable ∧
    ("" ∈ GITHUB_PROXIES ∧ ∃ d, probeDirectOnly "" = some d ∧
      ∀ q ∈ GITHUB_PROXIES, ∀ e, probeDirectOnly q = some e → d ≤ e) :=
  ⟨(select_fastest_spec probeAllDown).2.1.mpr (fun _ _ => rfl),
    (select_fastest_spec probeDirectOnly).2.2 "" rfl⟩

theorem probe_front_gt (probe : String → Option Nat) (d : Nat) (l : List String)
    (hstrict : ∀ a ∈ l, ∀ e, probe a = some e → d < e) :
    ∀ y ∈ List.filterMap (probeItem probe) l, d < y.2 := by
  intro y hy
  have hsnd := filterMap_probeItem_sound probe l y hy
  exact hstrict y.1 hsnd.1 y.2 hsnd.2

theorem probe_suffix_ge (probe : String → Option Nat) (d : Nat) (l : List String)
    (hsub : ∀ a ∈ l, a ∈ GITHUB_PROXIES)
    (hmin : ∀ q ∈ GITHUB_PROXIES, ∀ e, probe q = some e → d ≤ e) :
    ∀ y ∈ List.filterMap (probeItem probe) l, d ≤ y.2 := by
  intro y hy
  have hsnd := filterMap_probeItem_sound probe l y hy
  exact hmin y.1 (hsub y.1 hsnd.1) y.2 hsnd.2

/-- C4: with ties decided by the minimum-by-key scan keeping the first
minimal element, a candidate that attains the minimal duration and is
preceded only by strictly slower (or unreachable) candidates wins; in
particular of two candidates with identical minimal durations the one
earlier in the input ordering is returned. -/
theorem tie_goes_to_earlier_candidate (probe : String → Option Nat)
    (i j d : Nat) (pa pb : String)
    (hij : i < j) (hj : j < GITHUB_PROXIES.length)
    (hgi : GITHUB_PROXIES.get? i = some pa)
    (hgj : GITHUB_PROXIES.get? j = some pb)
    (hdi : probe pa = some d) (hdj : probe pb = some d)
    (hmin : ∀ q ∈ GITHUB_PROXIES, ∀ e, probe q = some e → d ≤ e)
    (hfirst : ∀ k, k < i → ∀ pk, GITHUB_PROXIES.get? k = some pk →
        ∀ e, probe pk = some e → d < e) :
    select_fastest_github_proxy probe = Except.ok pa := by
  have hlen : GITHUB_PROXIES.length = 4 := by
    simp [GITHUB_PROXIES]
  have hi3 : i < 3 := by omega
  interval_cases i
  · simp [GITHUB_PROXIES] at hgi
    subst hgi
    have hsplit : probeResults probe
        = [] ++ (("", d) :: List.filterMap (probeItem probe)
            ["https://github.akams.cn/", "https://github.moeyy.xyz/", "https://tvv.tw/"]) := by
      unfold probeResults GITHUB_PROXIES
      rw [List.filterMap_cons]
      simp [probeItem, hdi]
    have hp := probe_front_gt probe d [] (by intro a ha; simp at ha)
    have hs := probe_suffix_ge probe d
      ["https://github.akams.cn/", "https://github.moeyy.xyz/", "https://tvv.tw/"]
      (by intro a ha; simp only [GITHUB_PROXIES, List.mem_cons] at ha ⊢; tauto) hmin
    have hmk := min_by_key_first_of_min (List.filterMap (probeItem probe) [])
      (List.filterMap (probeItem probe)
        ["https://github.akams.cn/", "https://github.moeyy.xyz/", "https://tvv.tw/"])
      ("", d) hp hs
    unfold select_fastest_github_proxy
    rw [hsplit]
    rw [show ([] : List (String × Nat))
      = List.filterMap (probeItem probe) [] from rfl] at *
    rw [hmk]
  · simp [GITHUB_PROXIES] at hgi
    subst hgi
    have hsplit : probeResults probe
        = List.filterMap (probeItem probe) [""]
            ++ (("https://github.akams.cn/", d) :: List.filterMap (probeItem probe)
                ["https://github.moeyy.xyz/", "https://tvv.tw/"]) := by
      unfold probeResults
      rw [show GITHUB_PROXIES = [""]
          ++ "https://github.akams.cn/"
            :: ["https://github.moeyy.xyz/", "https://tvv.tw/"] from rfl]
      rw [List.filterMap_append, List.filterMap_cons]
      simp [probeItem, hdi]
    have hp := probe_front_gt probe d [""]
      (by
        intro a ha e he
        have ha1 : a = "" := by simpa using ha
        exact hfirst 0 (by omega) a (by rw [ha1]; rfl) e he)
    have hs := probe_suffix_ge probe d
      ["https://github.moeyy.xyz/", "https://tvv.tw/"]
      (by intro a ha; simp only [GITHUB_PROXIES, List.mem_cons] at ha ⊢; tauto) hmin
    have hmk := min_by_key_first_of_min (List.filterMap (probeItem probe) [""])
      (List.filterMap (probeItem probe) ["https://github.moeyy.xyz/", "https://tvv.tw/"])
      ("https://github.akams.cn/", d) hp hs
    unfold select_fastest_github_proxy
    rw [hsplit, hmk]
  · simp [GITHUB_PROXIES] at hgi
    subst hgi
    have hsplit : probeResults probe
        = List.filterMap (probeItem probe) ["", "https://github.akams.cn/"]
            ++ (("https://github.moeyy.xyz/", d)
                :: List.filterMap (probeItem probe) ["https://tvv.tw/"]) := by
      unfold probeResults
      rw [show GITHUB_PROXIES = ["", "https://github.akams.cn/"]
          ++ "https://github.moeyy.xyz/" :: ["https://tvv.tw/"] from rfl]
      rw [List.filterMap_append, List.filterMap_cons]
      simp [probeItem, hdi]
    have hp := probe_front_gt probe d ["", "https://github.akams.cn/"]
      (by
        intro a ha e he
        have ha1 : a = "" ∨ a = "https://github.akams.cn/" := by simpa using ha
        rcases ha1 with ha1 | ha1
        · exact hfirst 0 (by omega) a (by rw [ha1]; rfl) e he
        · exact hfirst 1 (by omega) a (by rw [ha1]; rfl) e he)
    have hs := probe_suffix_ge probe d ["https://tvv.tw/"]
      (by intro a ha; simp only [GITHUB_PROXIES, List.mem_cons] at ha ⊢; tauto) hmin
    have hmk := min_by_key_first_of_min
      (List.filterMap (probeItem probe) ["", "https://github.akams.cn/"])
      (List.filterMap (probeItem probe) ["https://tvv.tw/"])
      ("https://github.moeyy.xyz/", d) hp hs
    unfold select_fastest_github_proxy
    rw [hsplit, hmk]

theorem tie_goes_to_earlier_candidate_witness :
    select_fastest_github_proxy probeTie = Except.ok "" := by
  refine tie_goes_to_earlier_candidate probeTie 0 1 5 "" "https://github.akams.cn/"
    (by omega) (by simp [GITHUB_PROXIES]) rfl rfl rfl rfl ?_ ?_
  · intro q hq e he
    fin_cases hq <;> simp [probeTie] at he <;> omega
  · intro k hk
    omega


/-! ## Configuration patching (`src/config.rs`)

`update_mixed_port` reads the YAML file, requires a mapping at top level,
inserts `mixed-port` (a `serde_yaml::Mapping` keeps insertion order;
inserting an existing key replaces its value in place, a new key is
appended), and writes the file back.  `parse_mixed_port` reads the
`mixed-port` key (falling back to `port` only when `mixed-port` is
absent) and converts it with `as_u64` followed by the `as u16` truncation.
The file I/O and YAML (de)serialization round-trip is abstracted: the
operations are modelled directly on the mapping. -/

inductive YamlValue
  | num (n : Nat)
  | str (s : String)
  | other
deriving DecidableEq

/-- `serde_yaml::Value::as_u64`: only numbers convert. -/
def as_u64 : YamlValue → Option Nat
  | YamlValue.num n => some n
  | _ => none

/-- `Mapping::get`: first entry with the given key. -/
def mapGet (m : List (String × YamlValue)) (k : String) : Option YamlValue :=
  (m.find? (fun p => p.1 == k)).map Prod.snd

/-- `Mapping::insert`: replace in place when the key exists, else append. -/
def mapInsert (m : List (String × YamlValue)) (k : String) (v : YamlValue) :
    List (String × YamlValue) :=
  if m.any (fun p => p.1 == k) then
    m.map (fun p => if p.1 == k then (k, v) else p)
  else
    m ++ [(k, v)]

/-- `parse_mixed_port`: read `mixed-port` (else `port`), `as_u64`, then
the `as u16` cast (truncation modulo 2^16). -/
def parse_mixed_port (m : List (String × YamlValue)) : Option Nat :=
  match mapGet m "mixed-port" with
  | some v => (as_u64 v).map (fun p => p % 65536)
  | none =>
    match mapGet m "port" with
    | some v => (as_u64 v).map (fun p => p % 65536)
    | none => none

/-- `update_mixed_port`: insert the new port (a `u16` in the source, hence
the `< 65536` hypotheses below) under `mixed-port`. -/
def update_mixed_port (m : List (String × YamlValue)) (new_port : Nat) :
    List (String × YamlValue) :=
  mapInsert m "mixed-port" (YamlValue.num new_port)

theorem find_map_self (m : List (String × YamlValue)) (k : String) (v : YamlValue)
    (hany : m.any (fun p => p.1 == k) = true) :
    (m.map (fun p => if p.1 == k then (k, v) else p)).find? (fun p => p.1 == k)
      = some (k, v) := by
  induction m with
  | nil => simp at hany
  | cons p m ih =>
    by_cases hp : (p.1 == k) = true
    · simp [List.find?, hp]
    · have hany2 : m.any (fun q => q.1 == k) = true := by
        simp [List.any_cons, hp] at hany
        simpa using hany
      have hpf : (p.1 == k) = false := by simpa using hp
      simp only [List.map_cons, if_neg hp, List.find?]
      rw [hpf]
      exact ih hany2

theorem find_map_ne (m : List (String × YamlValue)) (k k' : String) (v : YamlValue)
    (hne : k' ≠ k) :
    (m.map (fun p => if p.1 == k then (k, v) else p)).find? (fun p => p.1 == k')
      = m.find? (fun p => p.1 == k') := by
  induction m with
  | nil => rfl
  | cons p m ih =>
    by_cases hp : (p.1 == k) = true
    · have hpk : p.1 = k := eq_of_beq hp
      have hkk : (k == k') = false := beq_eq_false_iff_ne.2 (fun e => hne e.symm)
      have hpk' : (p.1 == k') = false := by rw [hpk]; exact hkk
      simp only [List.map_cons, if_pos hp, List.find?]
      rw [hkk, hpk']
      exact ih
    · simp only [List.map_cons, if_neg hp, List.find?]
      cases hq : (p.1 == k') with
      | true => rfl
      | false => exact ih

theorem mapGet_mapInsert_self (m : List (String × YamlValue)) (k : String)
    (v : YamlValue) : mapGet (mapInsert m k v) k = some v := by
  unfold mapGet mapInsert
  by_cases hany : m.any (fun p => p.1 == k) = true
  · rw [if_pos hany, find_map_self m k v hany]
    rfl
  · rw [if_neg hany, List.find?_append]
    have hnone : m.find? (fun p => p.1 == k) = none := by
      rw [List.find?_eq_none]
      intro x hx hpx
      exact hany (List.any_eq_true.2 ⟨x, hx, hpx⟩)
    rw [hnone]
    simp [List.find?]

theorem mapGet_mapInsert_ne (m : List (String × YamlValue)) (k k' : String)
    (v : YamlValue) (hne : k' ≠ k) :
    mapGet (mapInsert m k v) k' = mapGet m k' := by
  unfold mapGet mapInsert
  by_cases hany : m.any (fun p => p.1 == k) = true
  · rw [if_pos hany, find_map_ne m k k' v hne]
  · rw [if_neg hany, List.find?_append]
    have hkk : (k == k') = false := beq_eq_false_iff_ne.2 (fun e => hne e.symm)
    rcases hf : m.find? (fun p => p.1 == k') with _ | r
    · rw [hf]
      simp [List.find?, hkk, Ne.symm hne]
    · rw [hf]
      simp

/-- An example document with an unrelated key and an old `port` key. -/
def docEx : List (String × YamlValue) :=
  [("port", YamlValue.num 7), ("rules", YamlValue.other)]

/-- C9: patching `mixed-port` into any mapping document and reading it
back yields the written port, while every other key keeps the value it
had before the write. -/
theorem mixed_port_roundtrip (m : List (String × YamlValue)) (port : Nat)
    (hport : port < 65536) :
    parse_mixed_port (update_mixed_port m port) = some port ∧
    ∀ k, k ≠ "mixed-port" → mapGet (update_mixed_port m port) k = mapGet m k := by
  constructor
  · unfold parse_mixed_port update_mixed_port
    rw [mapGet_mapInsert_self]
    simp [as_u64, Nat.mod_eq_of_lt hport]
  · intro k hk
    exact mapGet_mapInsert_ne m "mixed-port" k (YamlValue.num port) hk

theorem mixed_port_roundtrip_witness :
    parse_mixed_port (update_mixed_port docEx 7890) = some 7890 ∧
    mapGet (update_mixed_port docEx 7890) "rules" = mapGet docEx "rules" :=
  ⟨(mixed_port_roundtrip docEx 7890 (by omega)).1,
    (mixed_port_roundtrip docEx 7890 (by omega)).2 "rules" (by decide)⟩

end ProxyRs
